import Mathlib

/-!
Shallow embedding of the audio-transcoding core of the repository
(`src/whatsapp-mcp-server/audio.py`) and of the `send_message` tool of
`src/whatsapp-mcp-server/main.py`.

The filesystem is modelled as explicit state (`FS`): a set of existing
regular files, a set of existing directories, and a counter used by the
temporary-name allocator.  The external encoder process (`ffmpeg`,
invoked through `subprocess.run`) is modelled as an injectable process
runner: a function from the command line and the current filesystem to
an exit code, captured stderr text, and the filesystem as the external
process left it.  The runner cannot touch the temporary-name allocator
state, which belongs to the Python process, not to the child process.
-/

/-- A model of the filesystem visible to the program: the set of paths that
are existing regular files, the set of paths that are existing directories,
and the state of the temporary-name allocator used by
`tempfile.NamedTemporaryFile`. -/
structure FS where
  files : List String
  dirs : List String
  tmpCounter : Nat
deriving Repr, DecidableEq

/-- `os.path.isfile`: the path is an existing regular file. -/
def isfile (fs : FS) (p : String) : Bool :=
  fs.files.contains p

/-- `os.path.exists`: the path exists as a file or as a directory. -/
def pathExists (fs : FS) (p : String) : Bool :=
  fs.files.contains p || fs.dirs.contains p

/-- `posixpath.dirname` on the character list of a path: everything up to the
last `/`, with trailing slashes stripped unless the head is made of slashes
only; empty when the path has no slash. -/
def dirnameData (l : List Char) : List Char :=
  let preRev := l.reverse.dropWhile (fun c => c != '/')
  if preRev.all (fun c => c == '/') then preRev.reverse
  else (preRev.dropWhile (fun c => c == '/')).reverse

/-- `os.path.dirname` for POSIX paths. -/
def dirname (p : String) : String :=
  String.mk (dirnameData p.data)

/-- `os.path.splitext` for POSIX paths: split the path at the last dot of its
basename, provided that dot lies after the last `/` and the basename has at
least one non-dot character before it (so dot-leading names such as
`".bashrc"` keep their dot in the root part).  Returns `(root, extension)`
with `root ++ extension = p`. -/
def splitext (p : String) : String × String :=
  let rev := p.data.reverse
  let baseRev := rev.takeWhile (fun c => c != '/')
  let preRev := rev.dropWhile (fun c => c != '/')
  let extRev := baseRev.takeWhile (fun c => c != '.')
  let restRev := baseRev.dropWhile (fun c => c != '.')
  match restRev with
  | [] => (p, "")
  | _ :: stemRev =>
    if stemRev.any (fun c => c != '.') then
      (String.mk (preRev.reverse ++ stemRev.reverse), String.mk ('.' :: extRev.reverse))
    else (p, "")

/-- The output-path derivation of `convert_to_opus_ogg` when `output_file`
is `None`: `os.path.splitext(input_file)[0] + ".ogg"`. -/
def deriveOutput (input_file : String) : String :=
  (splitext input_file).1 ++ ".ogg"

/-- `os.makedirs`: create the directory and, recursively, its missing
ancestors.  Fuel bounds the recursion; `dirname` strictly shortens a path,
so `name.length + 1` units of fuel always suffice. -/
def makedirs : Nat → FS → String → FS
  | 0, fs, _ => fs
  | fuel + 1, fs, name =>
    let head := dirname name
    let fs1 :=
      if head != "" && head != name && !(pathExists fs head) then
        makedirs fuel fs head
      else fs
    { fs1 with dirs := name :: fs1.dirs }

/-- The outcome of running the external encoder process: its exit code, the
captured stderr text, and the file/directory state it left behind. -/
structure RunOutcome where
  exitCode : Nat
  errOutput : String
  files : List String
  dirs : List String
deriving Repr, DecidableEq

/-- An injectable stand-in for `subprocess.run` on the encoder command line:
given the argument vector and the current filesystem, it yields the process
outcome.  The child process cannot change the temporary-name allocator. -/
def ProcessRunner : Type :=
  List String → FS → RunOutcome

/-- The error taxonomy of the transcoding core: `FileNotFoundError`
(`InputNotFound`) and `RuntimeError` (`EncodingFailed`), each carrying its
message text. -/
inductive AudioError where
  | fileNotFound (msg : String)
  | runtimeError (msg : String)
deriving Repr, DecidableEq

/-- `str(e)` on the modelled exceptions: the carried message. -/
def errMsg : AudioError → String
  | .fileNotFound m => m
  | .runtimeError m => m

/-- The decimal digit character for `d < 10`. -/
def digitChar (d : Nat) : Char :=
  Char.ofNat (48 + d)

/-- Decimal rendering, by fuel-bounded recursion on the leading digits. -/
def natReprGo : Nat → Nat → List Char
  | 0, _ => []
  | fuel + 1, n =>
    if n < 10 then [digitChar n]
    else natReprGo fuel (n / 10) ++ [digitChar (n % 10)]

/-- Decimal rendering of a natural number as a character list. -/
def natReprAux (n : Nat) : List Char :=
  natReprGo (n + 1) n

/-- Decimal rendering of a natural number (`str(n)`). -/
def natRepr (n : Nat) : String :=
  String.mk (natReprAux n)

/-- The name allocated by `tempfile.NamedTemporaryFile(suffix=".ogg")` when
the allocator is in state `n`: a unique name in the system temporary-file
area, carrying the requested suffix. -/
def tempName (n : Nat) : String :=
  "/tmp/tmp" ++ natRepr n ++ ".ogg"

/-- The `ffmpeg` argument vector built by `convert_to_opus_ogg`. -/
def buildCmd (input_file output_file bitrate : String) (sample_rate : Nat) : List String :=
  ["ffmpeg",
   "-i", input_file,
   "-c:a", "libopus",
   "-b:a", bitrate,
   "-ar", natRepr sample_rate,
   "-application", "voip",
   "-vbr", "on",
   "-compression_level", "10",
   "-frame_duration", "60",
   "-y",
   output_file]

/-- The output path resolved by `convert_to_opus_ogg`: the explicit
`output_file` when given, otherwise the derivation from `input_file`. -/
def resolvedOutput (input_file : String) (output_file : Option String) : String :=
  match output_file with
  | none => deriveOutput input_file
  | some f => f

/-- The directory-creation step of `convert_to_opus_ogg`:
`if output_dir and not os.path.exists(output_dir): os.makedirs(output_dir)`. -/
def mkdirStep (fs : FS) (out : String) : FS :=
  let output_dir := dirname out
  if output_dir != "" && !(pathExists fs output_dir) then
    makedirs (output_dir.length + 1) fs output_dir
  else fs

/-- The result of a call into the transcoding core: the returned path or the
raised error, the filesystem after the call, and the list of encoder
processes that were spawned during the call. -/
structure ConvResult where
  result : Except AudioError String
  fs : FS
  spawned : List (List String)
deriving Repr

/-- `convert_to_opus_ogg` from `audio.py`: validate the input path, resolve
the output path, ensure its parent directory exists, run the encoder, and
return the output path on exit code 0 or raise `RuntimeError` carrying the
captured stderr otherwise. -/
def convert_to_opus_ogg (runner : ProcessRunner) (fs : FS) (input_file : String)
    (output_file : Option String) (bitrate : String) (sample_rate : Nat) : ConvResult :=
  if isfile fs input_file then
    let out := resolvedOutput input_file output_file
    let fs1 := mkdirStep fs out
    let cmd := buildCmd input_file out bitrate sample_rate
    let ro := runner cmd fs1
    let fs2 : FS := ⟨ro.files, ro.dirs, fs1.tmpCounter⟩
    if ro.exitCode = 0 then ⟨.ok out, fs2, [cmd]⟩
    else
      ⟨.error (.runtimeError
          ("Falha ao converter áudio. Você provavelmente precisa instalar o ffmpeg " ++ ro.errOutput)),
        fs2, [cmd]⟩
  else
    ⟨.error (.fileNotFound ("Arquivo de entrada não encontrado: " ++ input_file)), fs, []⟩

/-- The allocation performed by `tempfile.NamedTemporaryFile(suffix=".ogg",
delete=False)` followed by `close()`: the fresh name is created as an empty
file and the allocator advances. -/
def tempAllocFS (fs : FS) : FS :=
  ⟨tempName fs.tmpCounter :: fs.files, fs.dirs, fs.tmpCounter + 1⟩

/-- `convert_to_opus_ogg_temp` from `audio.py`: allocate a `.ogg` temporary
file, delegate to `convert_to_opus_ogg` with that name as the output path,
return the name on success; on any failure delete the temporary file if it
still exists and re-raise the original error. -/
def convert_to_opus_ogg_temp (runner : ProcessRunner) (fs : FS) (input_file bitrate : String)
    (sample_rate : Nat) : ConvResult :=
  let name := tempName fs.tmpCounter
  let fs1 := tempAllocFS fs
  let r := convert_to_opus_ogg runner fs1 input_file (some name) bitrate sample_rate
  match r.result with
  | .ok _ => ⟨.ok name, r.fs, r.spawned⟩
  | .error e =>
    let fs2 : FS :=
      if pathExists r.fs name then
        ⟨r.fs.files.filter (fun f => f != name), r.fs.dirs, r.fs.tmpCounter⟩
      else r.fs
    ⟨.error e, fs2, r.spawned⟩

/-- The observable outcome of the `__main__` block of `audio.py`: the process
exit code, the printed line, and the final filesystem. -/
structure CliResult where
  exitCode : Nat
  output : String
  fs : FS
deriving Repr, DecidableEq

/-- The `__main__` block of `audio.py`: with fewer than two argv entries print
the usage line and exit 1; otherwise call `convert_to_opus_ogg_temp` on
`argv[1]` (the second positional argument is never read), print the resulting
path on success or the error message on failure, exiting 1 on failure. -/
def mainCli (runner : ProcessRunner) (fs : FS) (argv : List String) : CliResult :=
  if argv.length < 2 then
    ⟨1, "Uso: python audio.py arquivo_entrada [arquivo_saida]", fs⟩
  else
    let input_file := (argv[1]?).getD ""
    let r := convert_to_opus_ogg_temp runner fs input_file "32k" 24000
    match r.result with
    | .ok p => ⟨0, "Convertido com sucesso para: " ++ p, r.fs⟩
    | .error e => ⟨1, "Erro: " ++ errMsg e, r.fs⟩

/-- The dictionary returned by the `send_message` tool of `main.py`. -/
structure SendResult where
  success : Bool
  message : String
deriving Repr, DecidableEq

/-- The `send_message` tool of `main.py`: an empty recipient is rejected
without calling the WhatsApp collaborator; otherwise the collaborator's
`(success, status_message)` pair is returned.  The second component of the
result records whether the collaborator was invoked. -/
def send_message (collab : String → String → Bool × String) (recipient message : String) :
    SendResult × Bool :=
  if recipient = "" then
    (⟨false, "O destinatário deve ser fornecido"⟩, false)
  else
    let r := collab recipient message
    (⟨r.1, r.2⟩, true)

/-! ## Helper lemmas -/

theorem natReprGo_congr : ∀ n fuel1 fuel2 : Nat, n < fuel1 → n < fuel2 →
    natReprGo fuel1 n = natReprGo fuel2 n := by
  intro n
  induction n using Nat.strong_induction_on with
  | _ n ih =>
    intro fuel1 fuel2 h1 h2
    cases fuel1 with
    | zero => omega
    | succ f1 =>
      cases fuel2 with
      | zero => omega
      | succ f2 =>
        unfold natReprGo
        by_cases hn : n < 10
        · rw [if_pos hn, if_pos hn]
        · rw [if_neg hn, if_neg hn]
          have hdiv : n / 10 < n := Nat.div_lt_self (by omega) (by omega)
          rw [ih (n / 10) hdiv f1 f2 (by omega) (by omega)]

theorem natReprAux_eq_unfold (n : Nat) :
    natReprAux n =
      if n < 10 then [digitChar n] else natReprAux (n / 10) ++ [digitChar (n % 10)] := by
  unfold natReprAux
  rw [natReprGo]
  by_cases hn : n < 10
  · rw [if_pos hn, if_pos hn]
  · rw [if_neg hn, if_neg hn]
    have hdiv : n / 10 < n := Nat.div_lt_self (by omega) (by omega)
    rw [natReprGo_congr (n / 10) n (n / 10 + 1) (by omega) (by omega)]

theorem natReprAux_ne_nil (n : Nat) : natReprAux n ≠ [] := by
  rw [natReprAux_eq_unfold]
  split
  · simp
  · simp

theorem digitChar_inj_lt : ∀ a < 10, ∀ b < 10, digitChar a = digitChar b → a = b := by
  decide

theorem concat_inj {α : Type} {l1 l2 : List α} {a b : α}
    (h : l1 ++ [a] = l2 ++ [b]) : l1 = l2 ∧ a = b := by
  have h' := congrArg List.reverse h
  simp only [List.reverse_append, List.reverse_singleton, List.singleton_append] at h'
  obtain ⟨h1, h2⟩ := List.cons.inj h'
  exact ⟨List.reverse_injective h2, h1⟩

theorem natReprAux_inj : ∀ m k : Nat, natReprAux m = natReprAux k → m = k := by
  intro m
  induction m using Nat.strong_induction_on with
  | _ m ih =>
    intro k h
    by_cases hm : m < 10 <;> by_cases hk : k < 10
    · rw [natReprAux_eq_unfold m, if_pos hm, natReprAux_eq_unfold k, if_pos hk] at h
      exact digitChar_inj_lt m hm k hk (List.cons.inj h).1
    · rw [natReprAux_eq_unfold m, if_pos hm, natReprAux_eq_unfold k, if_neg hk] at h
      have hlen := congrArg List.length h
      simp only [List.length_cons, List.length_nil, List.length_append] at hlen
      have : natReprAux (k / 10) = [] :=
        List.length_eq_zero.mp (by omega)
      exact absurd this (natReprAux_ne_nil _)
    · rw [natReprAux_eq_unfold m, if_neg hm, natReprAux_eq_unfold k, if_pos hk] at h
      have hlen := congrArg List.length h
      simp only [List.length_cons, List.length_nil, List.length_append] at hlen
      have : natReprAux (m / 10) = [] :=
        List.length_eq_zero.mp (by omega)
      exact absurd this (natReprAux_ne_nil _)
    · rw [natReprAux_eq_unfold m, if_neg hm, natReprAux_eq_unfold k, if_neg hk] at h
      obtain ⟨h1, h2⟩ := concat_inj h
      have hmod : m % 10 = k % 10 :=
        digitChar_inj_lt (m % 10) (Nat.mod_lt _ (by omega)) (k % 10) (Nat.mod_lt _ (by omega)) h2
      have hdiv : m / 10 = k / 10 := ih (m / 10) (Nat.div_lt_self (by omega) (by omega)) _ h1
      have em := Nat.div_add_mod m 10
      have ek := Nat.div_add_mod k 10
      omega

theorem tempName_inj : ∀ m k : Nat, tempName m = tempName k → m = k := by
  intro m k h
  have hd := congrArg String.data h
  rw [tempName, tempName, String.data_append, String.data_append,
    String.data_append, String.data_append] at hd
  have h1 := List.append_cancel_right hd
  have h2 := List.append_cancel_left h1
  exact natReprAux_inj m k h2

theorem natRepr_inj : ∀ m k : Nat, natRepr m = natRepr k → m = k := by
  intro m k h
  exact natReprAux_inj m k (congrArg String.data h)

theorem splitext_append (p : String) : (splitext p).1 ++ (splitext p).2 = p := by
  unfold splitext
  dsimp only
  cases hrest : List.dropWhile (fun c => c != '.')
      (List.takeWhile (fun c => c != '/') p.data.reverse) with
  | nil =>
    exact String.append_empty p
  | cons c stemRev =>
    have hc : c = '.' := by
      have := List.head?_dropWhile_not (fun c => c != '.')
        (List.takeWhile (fun c => c != '/') p.data.reverse)
      rw [hrest] at this
      simpa using this
    dsimp only
    by_cases hany : (stemRev.any fun x => x != '.') = true
    · rw [if_pos hany]
      apply String.ext
      rw [String.data_append]
      apply List.reverse_injective
      have h1 := List.takeWhile_append_dropWhile (fun c => c != '/') p.data.reverse
      have h2 := List.takeWhile_append_dropWhile (fun c => c != '.')
        (List.takeWhile (fun c => c != '/') p.data.reverse)
      rw [hrest] at h2
      subst hc
      conv_rhs => rw [← h1, ← h2]
      simp [List.reverse_append, List.append_assoc]
    · rw [if_neg hany]
      exact String.append_empty p

theorem dirnameData_append (l1 l2 : List Char) (h : ∀ c ∈ l2, (c != '/') = true) :
    dirnameData (l1 ++ l2) = dirnameData l1 := by
  unfold dirnameData
  have hdrop : List.dropWhile (fun c => c != '/') l2.reverse = [] :=
    List.dropWhile_eq_nil_iff.mpr (fun x hx => h x (List.mem_reverse.mp hx))
  rw [List.reverse_append, List.dropWhile_append, hdrop]
  simp

theorem dirname_append (s t : String) (h : ∀ c ∈ t.data, (c != '/') = true) :
    dirname (s ++ t) = dirname s := by
  unfold dirname
  rw [String.data_append, dirnameData_append _ _ h]

theorem dirname_deriveOutput (p : String) : dirname (deriveOutput p) = dirname p := by
  have hogg : ∀ c ∈ (".ogg" : String).data, (c != '/') = true := by decide
  unfold deriveOutput
  rw [dirname_append _ _ hogg]
  unfold splitext
  dsimp only
  cases hrest : List.dropWhile (fun c => c != '.')
      (List.takeWhile (fun c => c != '/') p.data.reverse) with
  | nil => rfl
  | cons c stemRev =>
    dsimp only
    by_cases hany : (stemRev.any fun x => x != '.') = true
    · rw [if_pos hany]
      unfold dirname
      refine congrArg String.mk ?_
      show dirnameData ((List.dropWhile (fun c => c != '/') p.data.reverse).reverse
          ++ stemRev.reverse) = dirnameData p.data
      have hstem : ∀ x ∈ stemRev.reverse, (x != '/') = true := by
        intro x hx
        have hx' : x ∈ stemRev := List.mem_reverse.mp hx
        have hmem : x ∈ List.dropWhile (fun c => c != '.')
            (List.takeWhile (fun c => c != '/') p.data.reverse) := by
          rw [hrest]
          exact List.mem_cons_of_mem _ hx'
        have hxbase := (List.dropWhile_sublist _).subset hmem
        exact @List.mem_takeWhile_imp _ (fun c => c != '/') _ _ hxbase
      rw [dirnameData_append _ _ hstem]
      have hbaseall : ∀ x ∈ (List.takeWhile (fun c => c != '/') p.data.reverse).reverse,
          (x != '/') = true := by
        intro x hx
        exact @List.mem_takeWhile_imp _ (fun c => c != '/') _ _ (List.mem_reverse.mp hx)
      have hp : p.data = (List.dropWhile (fun c => c != '/') p.data.reverse).reverse
          ++ (List.takeWhile (fun c => c != '/') p.data.reverse).reverse := by
        have h1 := List.takeWhile_append_dropWhile (fun c => c != '/') p.data.reverse
        calc p.data = p.data.reverse.reverse := (List.reverse_reverse _).symm
        _ = (List.takeWhile (fun c => c != '/') p.data.reverse
              ++ List.dropWhile (fun c => c != '/') p.data.reverse).reverse := by rw [h1]
        _ = _ := by rw [List.reverse_append]
      conv_rhs => rw [hp]
      rw [dirnameData_append _ _ hbaseall]
    · rw [if_neg hany]

theorem length_pos_of_ne_empty (s : String) (h : s ≠ "") : 0 < s.length := by
  cases hs : s.data with
  | nil => exact absurd (String.ext hs) h
  | cons c l =>
    have : s.length = s.data.length := rfl
    rw [this, hs]
    simp

theorem makedirs_files (fuel : Nat) (fs : FS) (name : String) :
    (makedirs fuel fs name).files = fs.files := by
  induction fuel generalizing fs name with
  | zero => rfl
  | succ fuel ih =>
    unfold makedirs
    dsimp only
    split
    · rw [ih]
    · rfl

theorem makedirs_tmpCounter (fuel : Nat) (fs : FS) (name : String) :
    (makedirs fuel fs name).tmpCounter = fs.tmpCounter := by
  induction fuel generalizing fs name with
  | zero => rfl
  | succ fuel ih =>
    unfold makedirs
    dsimp only
    split
    · rw [ih]
    · rfl

theorem makedirs_dirs_mono (fuel : Nat) (fs : FS) (name : String) :
    ∀ d ∈ fs.dirs, d ∈ (makedirs fuel fs name).dirs := by
  induction fuel generalizing fs name with
  | zero => exact fun d hd => hd
  | succ fuel ih =>
    intro d hd
    unfold makedirs
    dsimp only
    split
    · exact List.mem_cons_of_mem _ (ih fs (dirname name) d hd)
    · exact List.mem_cons_of_mem _ hd

theorem makedirs_mem (fuel : Nat) (fs : FS) (name : String) (h : 0 < fuel) :
    name ∈ (makedirs fuel fs name).dirs := by
  cases fuel with
  | zero => omega
  | succ fuel =>
    unfold makedirs
    dsimp only
    exact List.mem_cons_self _ _

theorem pathExists_mono_dirs (fs fs' : FS) (p : String)
    (hf : fs'.files = fs.files) (hd : ∀ d ∈ fs.dirs, d ∈ fs'.dirs)
    (h : pathExists fs p = true) : pathExists fs' p = true := by
  unfold pathExists at *
  rcases Bool.or_eq_true_iff.mp h with h1 | h2
  · rw [hf]
    exact Bool.or_eq_true_iff.mpr (Or.inl h1)
  · refine Bool.or_eq_true_iff.mpr (Or.inr ?_)
    exact List.elem_eq_true_of_mem (hd p (List.mem_of_elem_eq_true h2))

/-! ## Behavior lemmas for `convert_to_opus_ogg` -/

theorem convert_of_isfile_false (runner : ProcessRunner) (fs : FS) (input : String)
    (out? : Option String) (bitrate : String) (sr : Nat) (h : isfile fs input = false) :
    convert_to_opus_ogg runner fs input out? bitrate sr =
      ⟨.error (.fileNotFound ("Arquivo de entrada não encontrado: " ++ input)), fs, []⟩ := by
  simp [convert_to_opus_ogg, h]

/-! ## Concrete fixtures used by the witnesses -/

/-- A deterministic encoder stand-in that always fails with exit code 1 and
the diagnostic text of a missing encoder binary. -/
def failRunner : ProcessRunner :=
  fun _ f => ⟨1, "ffmpeg: command not found", f.files, f.dirs⟩

/-- A deterministic encoder stand-in that always succeeds and writes the
output file (the last command-line argument). -/
def okRunner : ProcessRunner :=
  fun c f => ⟨0, "", (c.getLast?).getD "" :: f.files, f.dirs⟩

/-! ## Claims -/

/-- C1: when the delegated `convert_to_opus_ogg` call fails,
`convert_to_opus_ogg_temp` deletes the allocated temporary file if it still
exists and then re-raises exactly the original error, unwrapped and
unsuppressed; afterwards the allocated temporary file does not exist, and a
possible absence of the file at deletion time does not mask or replace the
original error (the re-raised error is the same in either case). -/
theorem temp_cleanup_reraises_original (runner : ProcessRunner) (fs : FS)
    (input bitrate : String) (sr : Nat) (e : AudioError)
    (h : (convert_to_opus_ogg runner (tempAllocFS fs) input (some (tempName fs.tmpCounter))
        bitrate sr).result = .error e) :
    (convert_to_opus_ogg_temp runner fs input bitrate sr).result = .error e ∧
    tempName fs.tmpCounter ∉ (convert_to_opus_ogg_temp runner fs input bitrate sr).fs.files := by
  unfold convert_to_opus_ogg_temp
  dsimp only
  rw [h]
  dsimp only
  refine ⟨rfl, ?_⟩
  by_cases hex : pathExists
      (convert_to_opus_ogg runner (tempAllocFS fs) input (some (tempName fs.tmpCounter))
        bitrate sr).fs (tempName fs.tmpCounter) = true
  · rw [if_pos hex]
    intro hmem
    have := (List.mem_filter.mp hmem).2
    simp at this
  · rw [if_neg hex]
    intro hmem
    exact hex (Bool.or_eq_true_iff.mpr (Or.inl (List.elem_eq_true_of_mem hmem)))

theorem temp_cleanup_reraises_original_witness :
    ((convert_to_opus_ogg failRunner (tempAllocFS ⟨["in.mp3"], [], 0⟩) "in.mp3"
        (some (tempName 0)) "32k" 24000).result =
      .error (.runtimeError
        "Falha ao converter áudio. Você provavelmente precisa instalar o ffmpeg ffmpeg: command not found")) ∧
    ((convert_to_opus_ogg_temp failRunner ⟨["in.mp3"], [], 0⟩ "in.mp3" "32k" 24000).result =
      .error (.runtimeError
        "Falha ao converter áudio. Você provavelmente precisa instalar o ffmpeg ffmpeg: command not found")) ∧
    tempName 0 ∉ (convert_to_opus_ogg_temp failRunner ⟨["in.mp3"], [], 0⟩ "in.mp3" "32k" 24000).fs.files :=
  ⟨rfl,
    (temp_cleanup_reraises_original failRunner ⟨["in.mp3"], [], 0⟩ "in.mp3" "32k" 24000 _ rfl).1,
    (temp_cleanup_reraises_original failRunner ⟨["in.mp3"], [], 0⟩ "in.mp3" "32k" 24000 _ rfl).2⟩

/-- C2: for an input path that is not an existing file, both
`convert_to_opus_ogg` and `convert_to_opus_ogg_temp` fail with the
`FileNotFoundError` (`InputNotFound`) message before any encoder process is
spawned, and perform no filesystem mutation: the files and directories are
unchanged and no temporary file is left behind.  (The hypotheses `hfresh`
and `hne` record the freshness guarantee of `tempfile.NamedTemporaryFile`:
the allocated name is a new name, distinct from every existing path.) -/
theorem missing_input_no_mutation (runner : ProcessRunner) (fs : FS)
    (input bitrate : String) (sr : Nat) (out? : Option String)
    (h : isfile fs input = false)
    (hfresh : tempName fs.tmpCounter ∉ fs.files)
    (hne : input ≠ tempName fs.tmpCounter) :
    (convert_to_opus_ogg runner fs input out? bitrate sr =
      ⟨.error (.fileNotFound ("Arquivo de entrada não encontrado: " ++ input)), fs, []⟩) ∧
    (convert_to_opus_ogg_temp runner fs input bitrate sr).result =
      .error (.fileNotFound ("Arquivo de entrada não encontrado: " ++ input)) ∧
    (convert_to_opus_ogg_temp runner fs input bitrate sr).fs.files = fs.files ∧
    (convert_to_opus_ogg_temp runner fs input bitrate sr).fs.dirs = fs.dirs ∧
    (convert_to_opus_ogg_temp runner fs input bitrate sr).spawned = [] := by
  have h1 : isfile (tempAllocFS fs) input = false := by
    unfold isfile tempAllocFS at *
    simp only [List.contains_cons]
    rw [h]
    simp [hne]
  have hconv := convert_of_isfile_false runner (tempAllocFS fs) input
    (some (tempName fs.tmpCounter)) bitrate sr h1
  have hex : pathExists (tempAllocFS fs) (tempName fs.tmpCounter) = true := by
    unfold pathExists tempAllocFS
    dsimp only
    simp [List.contains_cons]
  have hfiles : List.filter (fun f => f != tempName fs.tmpCounter) (tempAllocFS fs).files
      = fs.files := by
    unfold tempAllocFS
    dsimp only
    rw [List.filter_cons]
    simp only [bne_self_eq_false, Bool.false_eq_true, if_false]
    refine List.filter_eq_self.mpr (fun a ha => ?_)
    simp only [bne_iff_ne, ne_eq]
    intro hh
    exact hfresh (hh ▸ ha)
  have htemp : convert_to_opus_ogg_temp runner fs input bitrate sr =
      ⟨.error (.fileNotFound ("Arquivo de entrada não encontrado: " ++ input)),
        ⟨fs.files, (tempAllocFS fs).dirs, (tempAllocFS fs).tmpCounter⟩, []⟩ := by
    unfold convert_to_opus_ogg_temp
    dsimp only
    rw [hconv]
    dsimp only
    rw [if_pos hex, hfiles]
  refine ⟨convert_of_isfile_false runner fs input out? bitrate sr h, ?_, ?_, ?_, ?_⟩ <;>
    simp [htemp, tempAllocFS]

theorem missing_input_no_mutation_witness :
    isfile ⟨[], [], 0⟩ "missing.wav" = false ∧
    (convert_to_opus_ogg failRunner ⟨[], [], 0⟩ "missing.wav" none "32k" 24000 =
      ⟨.error (.fileNotFound "Arquivo de entrada não encontrado: missing.wav"), ⟨[], [], 0⟩, []⟩) ∧
    (convert_to_opus_ogg_temp failRunner ⟨[], [], 0⟩ "missing.wav" "32k" 24000).fs.files = [] ∧
    (convert_to_opus_ogg_temp failRunner ⟨[], [], 0⟩ "missing.wav" "32k" 24000).spawned = [] := by
  have hm := missing_input_no_mutation failRunner ⟨[], [], 0⟩ "missing.wav" "32k" 24000 none
    rfl (by simp) (by decide)
  exact ⟨rfl, hm.1, hm.2.2.1, hm.2.2.2.2⟩

/-- C3: with an omitted output path, `convert_to_opus_ogg` derives the output
path by replacing the input path's extension with `.ogg`: the split of the
input into root and extension recomposes to the input (so only the extension
is replaced), the derived path keeps the input's directory, and the
derivation is the pure function `deriveOutput` of the input path alone; on a
successful call the returned path is exactly the derived path. -/
theorem derived_output_pure_and_returned (runner : ProcessRunner) (fs : FS)
    (input bitrate : String) (sr : Nat) (h : isfile fs input = true) :
    (splitext input).1 ++ (splitext input).2 = input ∧
    dirname (deriveOutput input) = dirname input ∧
    deriveOutput input = (splitext input).1 ++ ".ogg" ∧
    (∀ p, (convert_to_opus_ogg runner fs input none bitrate sr).result = .ok p →
      p = deriveOutput input) := by
  refine ⟨splitext_append input, dirname_deriveOutput input, rfl, ?_⟩
  intro p hp
  simp only [convert_to_opus_ogg, h, if_true, resolvedOutput] at hp
  split at hp
  · dsimp only at hp
    exact (Except.ok.inj hp).symm
  · dsimp only at hp
    exact absurd hp (by simp)

theorem derived_output_pure_and_returned_witness :
    isfile ⟨["dir/voice.mp3"], ["dir"], 0⟩ "dir/voice.mp3" = true ∧
    deriveOutput "dir/voice.mp3" = "dir/voice.ogg" ∧
    dirname (deriveOutput "dir/voice.mp3") = dirname "dir/voice.mp3" ∧
    (∀ p, (convert_to_opus_ogg okRunner ⟨["dir/voice.mp3"], ["dir"], 0⟩ "dir/voice.mp3"
        none "32k" 24000).result = .ok p → p = deriveOutput "dir/voice.mp3") := by
  have hm := derived_output_pure_and_returned okRunner ⟨["dir/voice.mp3"], ["dir"], 0⟩
    "dir/voice.mp3" "32k" 24000 rfl
  exact ⟨rfl, rfl, hm.2.1, hm.2.2.2⟩

/-- C4: whenever the external encoder process exits with a non-zero status,
`convert_to_opus_ogg` fails with the `RuntimeError` (`EncodingFailed`)
message that embeds the captured stderr text exactly as emitted by the
process (the message is a fixed prefix followed verbatim by the stderr
text); in the concrete scenario of exit code 1 with stderr
`"ffmpeg: command not found"` the raised error carries that exact text. -/
theorem encoding_failure_carries_stderr (runner : ProcessRunner) (fs : FS)
    (input bitrate : String) (sr : Nat) (out? : Option String)
    (h : isfile fs input = true)
    (hcode : (runner (buildCmd input (resolvedOutput input out?) bitrate sr)
        (mkdirStep fs (resolvedOutput input out?))).exitCode ≠ 0) :
    (convert_to_opus_ogg runner fs input out? bitrate sr).result =
      .error (.runtimeError
        ("Falha ao converter áudio. Você provavelmente precisa instalar o ffmpeg " ++
          (runner (buildCmd input (resolvedOutput input out?) bitrate sr)
            (mkdirStep fs (resolvedOutput input out?))).errOutput)) ∧
    (∃ pre, "Falha ao converter áudio. Você provavelmente precisa instalar o ffmpeg " ++
        (runner (buildCmd input (resolvedOutput input out?) bitrate sr)
          (mkdirStep fs (resolvedOutput input out?))).errOutput =
      pre ++ (runner (buildCmd input (resolvedOutput input out?) bitrate sr)
          (mkdirStep fs (resolvedOutput input out?))).errOutput) := by
  constructor
  · simp only [convert_to_opus_ogg, h, if_true]
    rw [if_neg hcode]
  · exact ⟨_, rfl⟩

theorem encoding_failure_carries_stderr_witness :
    isfile ⟨["voice.mp3"], [], 0⟩ "voice.mp3" = true ∧
    (failRunner (buildCmd "voice.mp3" (resolvedOutput "voice.mp3" none) "32k" 24000)
        (mkdirStep ⟨["voice.mp3"], [], 0⟩ (resolvedOutput "voice.mp3" none))).exitCode ≠ 0 ∧
    (convert_to_opus_ogg failRunner ⟨["voice.mp3"], [], 0⟩ "voice.mp3" none "32k" 24000).result =
      .error (.runtimeError
        "Falha ao converter áudio. Você provavelmente precisa instalar o ffmpeg ffmpeg: command not found") := by
  have hm := encoding_failure_carries_stderr failRunner ⟨["voice.mp3"], [], 0⟩ "voice.mp3"
    "32k" 24000 none rfl (by decide)
  exact ⟨rfl, by decide, hm.1⟩

/-- C5: every call of `convert_to_opus_ogg` that reaches the encoder step
invokes the encoder with exactly the fixed argument set -- Opus codec
(`-c:a libopus`), the requested bitrate (`-b:a`), the requested sample rate
(`-ar`), the voice application profile (`-application voip`), variable
bitrate enabled (`-vbr on`), maximum compression effort
(`-compression_level 10`), 60-millisecond frames (`-frame_duration 60`) and
unconditional overwrite (`-y`) -- and on encoder exit 0 returns the output
path, with no pre-existence check on the output file (a repeated call with
an existing output path overwrites rather than failing). -/
theorem encoder_fixed_argument_set (runner : ProcessRunner) (fs : FS)
    (input bitrate : String) (sr : Nat) (out? : Option String)
    (h : isfile fs input = true) :
    (convert_to_opus_ogg runner fs input out? bitrate sr).spawned =
      [["ffmpeg", "-i", input, "-c:a", "libopus", "-b:a", bitrate, "-ar", natRepr sr,
        "-application", "voip", "-vbr", "on", "-compression_level", "10",
        "-frame_duration", "60", "-y", resolvedOutput input out?]] ∧
    ((runner (buildCmd input (resolvedOutput input out?) bitrate sr)
        (mkdirStep fs (resolvedOutput input out?))).exitCode = 0 →
      (convert_to_opus_ogg runner fs input out? bitrate sr).result =
        .ok (resolvedOutput input out?)) := by
  constructor
  · simp only [convert_to_opus_ogg, h, if_true]
    split <;> rfl
  · intro hc
    simp only [convert_to_opus_ogg, h, if_true]
    rw [if_pos hc]

theorem encoder_fixed_argument_set_witness :
    isfile ⟨["voice.mp3", "voice.ogg"], [], 0⟩ "voice.mp3" = true ∧
    (convert_to_opus_ogg okRunner ⟨["voice.mp3", "voice.ogg"], [], 0⟩ "voice.mp3"
        none "32k" 24000).spawned =
      [["ffmpeg", "-i", "voice.mp3", "-c:a", "libopus", "-b:a", "32k", "-ar", "24000",
        "-application", "voip", "-vbr", "on", "-compression_level", "10",
        "-frame_duration", "60", "-y", "voice.ogg"]] ∧
    (convert_to_opus_ogg okRunner ⟨["voice.mp3", "voice.ogg"], [], 0⟩ "voice.mp3"
        none "32k" 24000).result = .ok "voice.ogg" := by
  have hm := encoder_fixed_argument_set okRunner ⟨["voice.mp3", "voice.ogg"], [], 0⟩
    "voice.mp3" "32k" 24000 none rfl
  exact ⟨rfl, hm.1, hm.2 rfl⟩

/-- C6: `convert_to_opus_ogg_temp` first allocates a fresh file whose name
has the `.ogg` suffix (the name is created in the file set handed to the
delegated call, and the allocator advances), on success returns exactly the
allocated name, and allocated names from distinct allocator states never
collide. -/
theorem temp_allocation_fresh_unique (runner : ProcessRunner) (fs : FS)
    (input bitrate : String) (sr : Nat) :
    (∃ stem, tempName fs.tmpCounter = stem ++ ".ogg") ∧
    tempName fs.tmpCounter ∈ (tempAllocFS fs).files ∧
    (tempAllocFS fs).tmpCounter = fs.tmpCounter + 1 ∧
    (∀ p, (convert_to_opus_ogg_temp runner fs input bitrate sr).result = .ok p →
      p = tempName fs.tmpCounter) ∧
    (∀ c1 c2 : Nat, c1 ≠ c2 → tempName c1 ≠ tempName c2) := by
  refine ⟨⟨"/tmp/tmp" ++ natRepr fs.tmpCounter, rfl⟩, List.mem_cons_self _ _, rfl, ?_, ?_⟩
  · intro p hp
    unfold convert_to_opus_ogg_temp at hp
    dsimp only at hp
    cases hres : (convert_to_opus_ogg runner (tempAllocFS fs) input
        (some (tempName fs.tmpCounter)) bitrate sr).result with
    | ok q =>
      rw [hres] at hp
      dsimp only at hp
      exact (Except.ok.inj hp).symm
    | error e =>
      rw [hres] at hp
      dsimp only at hp
      exact absurd hp (by simp)
  · intro c1 c2 hne heq
    exact hne (tempName_inj c1 c2 heq)

theorem temp_allocation_fresh_unique_witness :
    (∃ stem, tempName 0 = stem ++ ".ogg") ∧
    tempName 0 ∈ (tempAllocFS ⟨["in.mp3"], [], 0⟩).files ∧
    (∀ p, (convert_to_opus_ogg_temp okRunner ⟨["in.mp3"], [], 0⟩ "in.mp3" "32k" 24000).result
        = .ok p → p = tempName 0) ∧
    tempName 0 ≠ tempName 1 := by
  have hm := temp_allocation_fresh_unique okRunner ⟨["in.mp3"], [], 0⟩ "in.mp3" "32k" 24000
  exact ⟨hm.1, hm.2.1, hm.2.2.2.1, hm.2.2.2.2 0 1 (by decide)⟩

theorem mkdirStep_of_exists (fs : FS) (out : String)
    (hex : pathExists fs (dirname out) = true) : mkdirStep fs out = fs := by
  unfold mkdirStep
  dsimp only
  rw [hex]
  simp

theorem mkdirStep_of_absent (fs : FS) (out : String) (hne : dirname out ≠ "")
    (hex : pathExists fs (dirname out) = false) :
    mkdirStep fs out = makedirs ((dirname out).length + 1) fs (dirname out) := by
  unfold mkdirStep
  dsimp only
  rw [hex]
  simp [bne_iff_ne, hne]

theorem mkdirStep_dirs_mono (fs : FS) (out : String) :
    ∀ d ∈ fs.dirs, d ∈ (mkdirStep fs out).dirs := by
  intro d hd
  unfold mkdirStep
  dsimp only
  split
  · exact makedirs_dirs_mono _ _ _ d hd
  · exact hd

theorem mkdirStep_parent_exists (fs : FS) (out : String) (hne : dirname out ≠ "") :
    pathExists (mkdirStep fs out) (dirname out) = true := by
  by_cases hex : pathExists fs (dirname out) = true
  · rw [mkdirStep_of_exists fs out hex]
    exact hex
  · have hf : pathExists fs (dirname out) = false := by
      cases hb : pathExists fs (dirname out)
      · rfl
      · exact absurd hb hex
    rw [mkdirStep_of_absent fs out hne hf]
    unfold pathExists
    exact Bool.or_eq_true_iff.mpr
      (Or.inr (List.elem_eq_true_of_mem (makedirs_mem _ _ _ (by omega))))

theorem mkdirStep_grandparent_exists (fs : FS) (out : String) (hne : dirname out ≠ "")
    (hex : pathExists fs (dirname out) = false) (hne2 : dirname (dirname out) ≠ "") :
    pathExists (mkdirStep fs out) (dirname (dirname out)) = true := by
  rw [mkdirStep_of_absent fs out hne hex]
  generalize dirname out = od at hne hne2 ⊢
  have hlen : 0 < od.length := length_pos_of_ne_empty od hne
  unfold makedirs
  dsimp only
  by_cases hcond :
      (dirname od != "" && dirname od != od && !pathExists fs (dirname od)) = true
  · rw [if_pos hcond]
    unfold pathExists
    exact Bool.or_eq_true_iff.mpr (Or.inr (List.elem_eq_true_of_mem
      (List.mem_cons_of_mem _ (makedirs_mem _ _ _ hlen))))
  · rw [if_neg hcond]
    by_cases hdo : dirname od = od
    · unfold pathExists
      refine Bool.or_eq_true_iff.mpr (Or.inr ?_)
      rw [hdo]
      exact List.elem_eq_true_of_mem (List.mem_cons_self _ _)
    · have hpe : pathExists fs (dirname od) = true := by
        by_contra hno
        apply hcond
        have h3 : pathExists fs (dirname od) = false := by
          cases hb : pathExists fs (dirname od)
          · rfl
          · exact absurd hb hno
        simp [bne_iff_ne, hne2, hdo, h3]
      exact pathExists_mono_dirs fs _ _ rfl (fun d hd => List.mem_cons_of_mem _ hd) hpe

/-- C7: before the encoder is invoked, the parent directory of the resolved
output path is created recursively if absent (after the directory step the
parent exists, and when it was absent its own parent exists too), the step
is a no-op -- not a failure -- when the directory already exists, existing
directories are preserved, the call then always reaches the encoder
(exactly one encoder command is spawned), and on a later failure the
created directories are not rolled back: the final directory set is exactly
the one the encoder process was left with. -/
theorem output_dir_created_idempotent_no_rollback (runner : ProcessRunner) (fs : FS)
    (input bitrate : String) (sr : Nat) (out? : Option String)
    (h : isfile fs input = true) :
    (dirname (resolvedOutput input out?) ≠ "" →
      pathExists (mkdirStep fs (resolvedOutput input out?))
        (dirname (resolvedOutput input out?)) = true) ∧
    (dirname (resolvedOutput input out?) ≠ "" →
      pathExists fs (dirname (resolvedOutput input out?)) = false →
      dirname (dirname (resolvedOutput input out?)) ≠ "" →
      pathExists (mkdirStep fs (resolvedOutput input out?))
        (dirname (dirname (resolvedOutput input out?))) = true) ∧
    (pathExists fs (dirname (resolvedOutput input out?)) = true →
      mkdirStep fs (resolvedOutput input out?) = fs) ∧
    (∀ d ∈ fs.dirs, d ∈ (mkdirStep fs (resolvedOutput input out?)).dirs) ∧
    (convert_to_opus_ogg runner fs input out? bitrate sr).spawned =
      [buildCmd input (resolvedOutput input out?) bitrate sr] ∧
    (∀ e, (convert_to_opus_ogg runner fs input out? bitrate sr).result = .error e →
      (convert_to_opus_ogg runner fs input out? bitrate sr).fs.dirs =
        (runner (buildCmd input (resolvedOutput input out?) bitrate sr)
          (mkdirStep fs (resolvedOutput input out?))).dirs) := by
  refine ⟨fun hne => mkdirStep_parent_exists fs _ hne,
    fun hne hex hne2 => mkdirStep_grandparent_exists fs _ hne hex hne2,
    fun hex => mkdirStep_of_exists fs _ hex,
    mkdirStep_dirs_mono fs _, ?_, ?_⟩
  · simp only [convert_to_opus_ogg, h, if_true]
    split <;> rfl
  · intro e he
    simp only [convert_to_opus_ogg, h, if_true] at he ⊢
    by_cases hc : (runner (buildCmd input (resolvedOutput input out?) bitrate sr)
        (mkdirStep fs (resolvedOutput input out?))).exitCode = 0
    · rw [if_pos hc] at he
      exact absurd he (by simp)
    · rw [if_neg hc]

theorem output_dir_created_idempotent_no_rollback_witness :
    isfile ⟨["a.mp3"], [], 0⟩ "a.mp3" = true ∧
    pathExists (mkdirStep ⟨["a.mp3"], [], 0⟩ "d/e/out.ogg") "d/e" = true ∧
    pathExists (mkdirStep ⟨["a.mp3"], [], 0⟩ "d/e/out.ogg") "d" = true ∧
    (convert_to_opus_ogg failRunner ⟨["a.mp3"], [], 0⟩ "a.mp3" (some "d/e/out.ogg")
        "32k" 24000).fs.dirs =
      (failRunner (buildCmd "a.mp3" "d/e/out.ogg" "32k" 24000)
        (mkdirStep ⟨["a.mp3"], [], 0⟩ "d/e/out.ogg")).dirs := by
  have hm := output_dir_created_idempotent_no_rollback failRunner ⟨["a.mp3"], [], 0⟩
    "a.mp3" "32k" 24000 (some "d/e/out.ogg") rfl
  refine ⟨rfl, ?_, ?_, ?_⟩
  · exact hm.1 (by decide)
  · exact hm.2.1 (by decide) rfl (by decide)
  · exact hm.2.2.2.2.2 _ rfl

/-- C8 (counterexample): the command-line entry point does not dispatch on a
supplied output path.  With `argv = ["audio.py", "in.mp3", "out.ogg"]` and a
succeeding encoder, the printed path is the ephemeral temporary name, not
the supplied `out.ogg`, and no file named `out.ogg` is produced -- refuting
the claim that the Transcoder path is invoked when an output path is
supplied. -/
theorem cli_ignores_output_argument_counterexample :
    (mainCli okRunner ⟨["in.mp3"], [], 0⟩ ["audio.py", "in.mp3", "out.ogg"]).output =
      "Convertido com sucesso para: /tmp/tmp0.ogg" ∧
    (mainCli okRunner ⟨["in.mp3"], [], 0⟩ ["audio.py", "in.mp3", "out.ogg"]).output ≠
      "Convertido com sucesso para: out.ogg" ∧
    "out.ogg" ∉ (mainCli okRunner ⟨["in.mp3"], [], 0⟩ ["audio.py", "in.mp3", "out.ogg"]).fs.files :=
  ⟨rfl, by decide, by decide⟩

/-- C8 (amended): the command-line entry point accepts an input path (a
second positional argument is accepted by the usage text but never read),
always invokes the Ephemeral Transcoder on `argv[1]` with the default
parameters, prints the resulting path on success and an error message on
failure, and exits nonzero on any failure, including missing arguments. -/
theorem cli_always_ephemeral (runner : ProcessRunner) (fs : FS) (argv : List String) :
    (argv.length < 2 →
      mainCli runner fs argv = ⟨1, "Uso: python audio.py arquivo_entrada [arquivo_saida]", fs⟩) ∧
    (∀ a i rest, argv = a :: i :: rest →
      (∀ p, (convert_to_opus_ogg_temp runner fs i "32k" 24000).result = .ok p →
        mainCli runner fs argv = ⟨0, "Convertido com sucesso para: " ++ p,
          (convert_to_opus_ogg_temp runner fs i "32k" 24000).fs⟩) ∧
      (∀ e, (convert_to_opus_ogg_temp runner fs i "32k" 24000).result = .error e →
        mainCli runner fs argv = ⟨1, "Erro: " ++ errMsg e,
          (convert_to_opus_ogg_temp runner fs i "32k" 24000).fs⟩)) := by
  constructor
  · intro hlt
    simp [mainCli, hlt]
  · intro a i rest hargv
    subst hargv
    have hlen : ¬ ((a :: i :: rest).length < 2) := by
      simp only [List.length_cons]
      omega
    have hidx : (((a :: i :: rest)[1]?).getD "") = i := by simp
    constructor
    · intro p hp
      unfold mainCli
      rw [if_neg hlen]
      dsimp only
      rw [hidx, hp]
    · intro e he
      unfold mainCli
      rw [if_neg hlen]
      dsimp only
      rw [hidx, he]

theorem cli_always_ephemeral_witness :
    mainCli okRunner ⟨["in.mp3"], [], 0⟩ ["audio.py"] =
      ⟨1, "Uso: python audio.py arquivo_entrada [arquivo_saida]", ⟨["in.mp3"], [], 0⟩⟩ ∧
    mainCli okRunner ⟨["in.mp3"], [], 0⟩ ["audio.py", "in.mp3", "out.ogg"] =
      ⟨0, "Convertido com sucesso para: " ++ tempName 0,
        (convert_to_opus_ogg_temp okRunner ⟨["in.mp3"], [], 0⟩ "in.mp3" "32k" 24000).fs⟩ := by
  have hm2 := cli_always_ephemeral okRunner ⟨["in.mp3"], [], 0⟩ ["audio.py", "in.mp3", "out.ogg"]
  have hm1 := cli_always_ephemeral okRunner ⟨["in.mp3"], [], 0⟩ ["audio.py"]
  exact ⟨hm1.1 (by decide), (hm2.2 "audio.py" "in.mp3" ["out.ogg"] rfl).1 (tempName 0) rfl⟩

/-- C9 (counterexample): for the input path `".ogg"` -- a file name that ends
in `.ogg` -- the derived output path is `".ogg.ogg"`, not the input itself:
`os.path.splitext` treats a dot-leading basename as having no extension, so
the claim fails as stated on such names. -/
theorem ogg_input_derivation_counterexample :
    (∃ s, (".ogg" : String) = s ++ ".ogg") ∧
    deriveOutput ".ogg" = ".ogg.ogg" ∧
    deriveOutput ".ogg" ≠ ".ogg" :=
  ⟨⟨"", rfl⟩, rfl, by decide⟩

/-- C9 (amended): for an input path whose `splitext` extension component is
`.ogg` (it ends in `.ogg` with at least one non-dot character between the
last slash and that suffix), the derived output path equals the input
itself, and the encoder is then invoked with the same path as both input
and overwritten output; for an input path with an empty extension component
(including dot-leading names such as `".ogg"`), the derived output is the
input with `.ogg` appended. -/
theorem derive_ogg_extension_and_no_extension (runner : ProcessRunner) (fs : FS)
    (bitrate : String) (sr : Nat) :
    (∀ input, (splitext input).2 = ".ogg" → deriveOutput input = input) ∧
    (∀ input, (splitext input).2 = "" → deriveOutput input = input ++ ".ogg") ∧
    (∀ input, isfile fs input = true → (splitext input).2 = ".ogg" →
      (convert_to_opus_ogg runner fs input none bitrate sr).spawned =
        [buildCmd input input bitrate sr]) := by
  have hfst : ∀ input, (splitext input).2 = ".ogg" → deriveOutput input = input := by
    intro input hext
    unfold deriveOutput
    rw [← hext]
    exact splitext_append input
  refine ⟨hfst, ?_, ?_⟩
  · intro input hext
    unfold deriveOutput
    have hs := splitext_append input
    rw [hext, String.append_empty] at hs
    rw [hs]
  · intro input hf hext
    have hsp : (convert_to_opus_ogg runner fs input none bitrate sr).spawned =
        [buildCmd input (resolvedOutput input none) bitrate sr] := by
      simp only [convert_to_opus_ogg, hf, if_true]
      split <;> rfl
    rw [hsp]
    have hro : resolvedOutput input none = input := hfst input hext
    rw [hro]

theorem derive_ogg_extension_and_no_extension_witness :
    (splitext "voice.ogg").2 = ".ogg" ∧
    deriveOutput "voice.ogg" = "voice.ogg" ∧
    deriveOutput "noext" = "noext.ogg" ∧
    (convert_to_opus_ogg okRunner ⟨["voice.ogg"], [], 0⟩ "voice.ogg" none "32k" 24000).spawned =
      [buildCmd "voice.ogg" "voice.ogg" "32k" 24000] := by
  have hm := derive_ogg_extension_and_no_extension okRunner ⟨["voice.ogg"], [], 0⟩ "32k" 24000
  exact ⟨rfl, hm.1 "voice.ogg" rfl, hm.2.1 "noext" rfl, hm.2.2 "voice.ogg" rfl rfl⟩

/-- C10: the `send_message` tool returns
`{success: False, message: "O destinatário deve ser fornecido"}` for an
empty recipient without invoking the WhatsApp-sending collaborator (the
Boolean in the result records the invocation), and for a non-empty
recipient returns exactly the success flag and status message produced by
the collaborator. -/
theorem send_message_recipient_validation (collab : String → String → Bool × String)
    (recipient message : String) :
    (recipient = "" →
      send_message collab recipient message =
        (⟨false, "O destinatário deve ser fornecido"⟩, false)) ∧
    (recipient ≠ "" →
      send_message collab recipient message =
        (⟨(collab recipient message).1, (collab recipient message).2⟩, true)) := by
  constructor
  · intro h
    simp [send_message, h]
  · intro h
    simp [send_message, h]

theorem send_message_recipient_validation_witness :
    send_message (fun _ _ => (true, "Message sent")) "" "oi" =
      (⟨false, "O destinatário deve ser fornecido"⟩, false) ∧
    send_message (fun _ _ => (true, "Message sent")) "123456789@s.whatsapp.net" "oi" =
      (⟨true, "Message sent"⟩, true) :=
  ⟨(send_message_recipient_validation (fun _ _ => (true, "Message sent")) "" "oi").1 rfl,
   (send_message_recipient_validation (fun _ _ => (true, "Message sent"))
      "123456789@s.whatsapp.net" "oi").2 (by decide)⟩
